import Mathlib

/-!
Shallow embedding of the kriya web-automation library (TypeScript) and proofs
about its specified behaviour.

JavaScript strings are modelled as `List Char` (`JStr`); JS numbers appearing
in similarity scores are modelled as exact rationals (`ℚ`); fallible
operations (`throw` in JS) are modelled with `Except`.  Whitespace and
lower-casing are modelled over the ASCII range, which is the range exercised
by the library's own string constants.
-/

namespace Kriya

/-- JS string, modelled as a list of characters. -/
abbrev JStr := List Char

/-- ASCII whitespace recognised by JS `trim` / `\s` (space, tab, LF, VT, FF, CR). -/
def isWS (c : Char) : Bool :=
  c = ' ' || c = '\t' || c = '\n' || c = '\x0b' || c = '\x0c' || c = '\r'

/-- ASCII lower-casing of a single character (JS `toLowerCase` on the ASCII range). -/
def lowerChar (c : Char) : Char :=
  if 'A' ≤ c ∧ c ≤ 'Z' then Char.ofNat (c.toNat + 32) else c

/-- JS `toLowerCase`. -/
def jsToLower (s : JStr) : JStr := s.map lowerChar

/-- JS `trim`: drop whitespace from both ends. -/
def jsTrim (s : JStr) : JStr :=
  ((s.dropWhile isWS).reverse.dropWhile isWS).reverse

/-- `text.toLowerCase().trim()`, the normalisation both similarity functions apply. -/
def jsNormalize (s : JStr) : JStr := jsTrim (jsToLower s)

/-- Does `a` start with `b`? (helper for `jsIncludes`). -/
def startsWithL : JStr → JStr → Bool
  | _, [] => true
  | [], _ :: _ => false
  | a :: as, b :: bs => a = b && startsWithL as bs

/-- JS `a.includes(b)`: `b` occurs as a contiguous substring of `a`. -/
def jsIncludes : JStr → JStr → Bool
  | [], b => startsWithL [] b
  | a :: as, b => startsWithL (a :: as) b || jsIncludes as b

/-- JS `Math.max` on two score values (kept as an explicit `if` so that all
score computations evaluate by kernel reduction). -/
def jsMax (a b : ℚ) : ℚ := if a ≤ b then b else a

/-- JS `Math.min` on two score values. -/
def jsMin (a b : ℚ) : ℚ := if a ≤ b then a else b

/-- `Math.max` on two word counts. -/
def natMax (a b : ℕ) : ℕ := if a ≤ b then b else a

/-- `s.split(/\s+/).filter(w => w !== '')`: the non-empty maximal runs between
whitespace. -/
def jsWords (s : JStr) : List JStr :=
  (s.splitOnP isWS).filter (fun w => w ≠ [])

/-- `s.split(' ').filter(w => w !== '')` (split on the literal space character),
used by `_calculateEnhancedSimilarity`. -/
def jsWordsSpace (s : JStr) : List JStr :=
  (s.splitOn ' ').filter (fun w => w ≠ [])

/-! ### Similarity scorer (`DOMActions._calculateExactSimilarity`)

The inner `words2.forEach` loop of the word-comparison branch threads three
accumulators: the running `commonWords` and `partialMatches` counters and the
per-`word1` `bestWordMatch`. -/

/-- One step of the inner `words2.forEach` loop for a fixed `word1`.
The accumulator is `(commonWords, partialMatches, bestWordMatch)`. -/
def wordPairStep (w1 : JStr) (acc : ℕ × ℕ × ℚ) (w2 : JStr) : ℕ × ℕ × ℚ :=
  if w1 = w2 then
    (acc.1 + 1, acc.2.1, jsMax acc.2.2 1)
  else if w1 ≠ [] ∧ w2 ≠ [] ∧ 3 ≤ w1.length ∧ 3 ≤ w2.length then
    if jsIncludes w1 w2 || jsIncludes w2 w1 then
      let longer := if w2.length < w1.length then w1 else w2
      let shorter := if w1.length ≤ w2.length then w1 else w2
      let partialRat : ℚ := (shorter.length : ℚ) / (longer.length : ℚ)
      (acc.1, acc.2.1 + 1, jsMax acc.2.2 (partialRat * (7/10)))
    else acc
  else acc

/-- One step of the outer `words1.forEach` loop: run the inner loop with
`bestWordMatch` reset to `0`, then add the resulting `bestWordMatch` to the
running `weightedScore`.  The accumulator is
`(commonWords, partialMatches, weightedScore)`. -/
def wordOuterStep (ws2 : List JStr) (acc : ℕ × ℕ × ℚ) (w1 : JStr) : ℕ × ℕ × ℚ :=
  let inner := ws2.foldl (wordPairStep w1) (acc.1, acc.2.1, 0)
  (inner.1, inner.2.1, acc.2.2 + inner.2.2)

/-- The full double loop over `words1`/`words2`, returning
`(commonWords, partialMatches, weightedScore)`. -/
def wordScanAll (ws1 ws2 : List JStr) : ℕ × ℕ × ℚ :=
  ws1.foldl (wordOuterStep ws2) (0, 0, 0)

/-- `DOMActions._calculateExactSimilarity` (src/unnamed/part_002, lines 1162-1223). -/
def calcExactSimilarity (t1 t2 : JStr) : ℚ :=
  let s1 := jsNormalize t1
  let s2 := jsNormalize t2
  if s1 = [] ∨ s2 = [] then 0
  else if s1 = s2 then 1
  else if jsIncludes s1 s2 || jsIncludes s2 s1 then
    let longer := if s2.length < s1.length then s1 else s2
    let shorter := if s1.length ≤ s2.length then s1 else s2
    let coverage : ℚ := (shorter.length : ℚ) / (longer.length : ℚ)
    jsMax (7/10) ((9/10) * coverage)
  else
    let ws1 := jsWords s1
    let ws2 := jsWords s2
    if ws1.length = 0 ∨ ws2.length = 0 then 0
    else
      let scan := wordScanAll ws1 ws2
      let totalWords : ℚ := (natMax ws1.length ws2.length : ℕ)
      let exactScore := (scan.1 : ℚ) / totalWords
      let partialScore := ((scan.2.1 : ℚ) / totalWords) * (3/10)
      let weightedAverage := scan.2.2 / (ws1.length : ℚ)
      jsMin 1 (jsMax exactScore (jsMax partialScore weightedAverage))

/-- The word-counting pass of `DOMActions._calculateEnhancedSimilarity`:
for each `word1`, an exact occurrence in `words2` counts one common word,
otherwise every sufficiently long partial (substring) pair counts one partial
match.  Returns `(commonWords, partialMatches)`. -/
def enhancedScan (ws1 ws2 : List JStr) : ℕ × ℕ :=
  ws1.foldl
    (fun acc w1 =>
      if ws2.any (fun w2 => w1 = w2) then (acc.1 + 1, acc.2)
      else if w1 ≠ [] ∧ 3 ≤ w1.length then
        (acc.1,
         acc.2 + ws2.countP (fun w2 =>
           w2 ≠ [] && 3 ≤ w2.length && w1 ≠ [] &&
           (jsIncludes w1 w2 || jsIncludes w2 w1)))
      else acc)
    (0, 0)

/-- `DOMActions._calculateEnhancedSimilarity` (src/unnamed/part_002, lines 801-854). -/
def calcEnhancedSimilarity (t1 t2 : JStr) : ℚ :=
  let s1 := jsNormalize t1
  let s2 := jsNormalize t2
  if s1 = [] ∨ s2 = [] then 0
  else if s1 = s2 then 1
  else if jsIncludes s1 s2 || jsIncludes s2 s1 then 9/10
  else
    let ws1 := jsWordsSpace s1
    let ws2 := jsWordsSpace s2
    if ws1.length = 0 ∨ ws2.length = 0 then 0
    else
      let scan := enhancedScan ws1 ws2
      let totalWords : ℚ := (natMax ws1.length ws2.length : ℕ)
      let exactScore := (scan.1 : ℚ) / totalWords
      let partialScore := ((scan.2 : ℚ) / totalWords) * (1/2)
      jsMin 1 (exactScore + partialScore)

/-! ### Basic facts about the JS string helpers -/

theorem startsWithL_refl (s : JStr) : startsWithL s s = true := by
  induction s with
  | nil => rfl
  | cons a as ih => simp [startsWithL, ih]

theorem startsWithL_nil_left {b : JStr} (h : startsWithL [] b = true) : b = [] := by
  cases b with
  | nil => rfl
  | cons x xs => simp [startsWithL] at h

theorem startsWithL_length {a b : JStr} (h : startsWithL a b = true) :
    b.length ≤ a.length := by
  induction b generalizing a with
  | nil => simp
  | cons x xs ih =>
    cases a with
    | nil => simp [startsWithL] at h
    | cons y ys =>
      simp only [startsWithL, Bool.and_eq_true] at h
      simpa using ih h.2

theorem startsWithL_eq_of_length {a b : JStr} (h : startsWithL a b = true)
    (hl : a.length = b.length) : a = b := by
  induction b generalizing a with
  | nil => cases a <;> simp_all
  | cons x xs ih =>
    cases a with
    | nil => simp [startsWithL] at h
    | cons y ys =>
      simp only [startsWithL, Bool.and_eq_true, decide_eq_true_eq] at h
      simp only [List.length_cons, Nat.succ_inj] at hl
      simp [h.1, ih h.2 hl]

theorem jsIncludes_nil_right (a : JStr) : jsIncludes a [] = true := by
  cases a with
  | nil => rfl
  | cons x xs => simp [jsIncludes, startsWithL]

theorem jsIncludes_refl (s : JStr) : jsIncludes s s = true := by
  cases s with
  | nil => rfl
  | cons x xs => simp [jsIncludes, startsWithL_refl]

theorem jsIncludes_length {a b : JStr} (h : jsIncludes a b = true) :
    b.length ≤ a.length := by
  induction a with
  | nil => simp [jsIncludes] at h; simp [startsWithL_nil_left h]
  | cons y ys ih =>
    simp only [jsIncludes, Bool.or_eq_true] at h
    rcases h with h | h
    · exact startsWithL_length h
    · exact Nat.le_trans (ih h) (by simp)

theorem jsIncludes_eq_of_length {a b : JStr} (h : jsIncludes a b = true)
    (hl : a.length = b.length) : a = b := by
  cases a with
  | nil => simp [jsIncludes] at h; simp [startsWithL_nil_left h]
  | cons y ys =>
    simp only [jsIncludes, Bool.or_eq_true] at h
    rcases h with h | h
    · exact startsWithL_eq_of_length h hl
    · exfalso
      have := jsIncludes_length h
      simp only [List.length_cons] at hl
      omega

theorem le_jsMax_left (a b : ℚ) : a ≤ jsMax a b := by
  unfold jsMax; split <;> simp_all

theorem jsMax_lt_of_lt {a b c : ℚ} (h1 : a < c) (h2 : b < c) : jsMax a b < c := by
  unfold jsMax; split <;> assumption

theorem jsMin_le_right (a b : ℚ) : jsMin a b ≤ b := by
  unfold jsMin; split <;> simp_all [le_of_not_le]

/-! ### Bounds on the word-comparison pass of `_calculateExactSimilarity` -/

theorem wordPairStep_fst {w1 : JStr} {ws2 : List JStr} (hno : w1 ∉ ws2)
    (acc : ℕ × ℕ × ℚ) : (ws2.foldl (wordPairStep w1) acc).1 = acc.1 := by
  induction ws2 generalizing acc with
  | nil => rfl
  | cons w2 rest ih =>
    have hne : w1 ≠ w2 := fun h => hno (h ▸ List.mem_cons_self w2 rest)
    have hno' : w1 ∉ rest := fun h => hno (List.mem_cons_of_mem _ h)
    simp only [List.foldl_cons]
    rw [ih hno']
    unfold wordPairStep
    rw [if_neg hne]
    split
    · split <;> rfl
    · rfl

/-- In the partial-match branch the two words have different lengths, so the
coverage ratio is strictly below `1` and the recorded match strength stays
strictly below `7/10`. -/
theorem wordPairStep_best_lt {w1 : JStr} {ws2 : List JStr} (hno : w1 ∉ ws2)
    {acc : ℕ × ℕ × ℚ} (hb : acc.2.2 < 7/10) :
    (ws2.foldl (wordPairStep w1) acc).2.2 < 7/10 := by
  induction ws2 generalizing acc with
  | nil => exact hb
  | cons w2 rest ih =>
    have hne : w1 ≠ w2 := fun h => hno (h ▸ List.mem_cons_self w2 rest)
    have hno' : w1 ∉ rest := fun h => hno (List.mem_cons_of_mem _ h)
    simp only [List.foldl_cons]
    apply ih hno'
    unfold wordPairStep
    rw [if_neg hne]
    split
    · rename_i hlen
      split
      · rename_i hincl
        apply jsMax_lt_of_lt hb
        -- the coverage ratio `shorter / longer` is < 1 because the lengths differ
        have hlne : w1.length ≠ w2.length := by
          intro he
          rcases Bool.or_eq_true _ _ |>.mp hincl with h | h
          · exact hne (jsIncludes_eq_of_length h he)
          · exact hne (jsIncludes_eq_of_length h he.symm).symm
        have h3a : 3 ≤ w1.length := hlen.2.2.1
        have h3b : 3 ≤ w2.length := hlen.2.2.2
        have hratio : (if w1.length ≤ w2.length then w1 else w2).length <
            (if w2.length < w1.length then w1 else w2).length := by
          split <;> split <;> omega
        have hpos : (0:ℚ) < ((if w2.length < w1.length then w1 else w2).length : ℚ) := by
          have : 0 < (if w2.length < w1.length then w1 else w2).length := by
            split <;> omega
          exact_mod_cast this
        have hlt1 : ((if w1.length ≤ w2.length then w1 else w2).length : ℚ) /
            ((if w2.length < w1.length then w1 else w2).length : ℚ) < 1 := by
          rw [div_lt_one hpos]
          exact_mod_cast hratio
        have hnn : (0:ℚ) ≤ ((if w1.length ≤ w2.length then w1 else w2).length : ℚ) /
            ((if w2.length < w1.length then w1 else w2).length : ℚ) := by
          positivity
        calc ((if w1.length ≤ w2.length then w1 else w2).length : ℚ) /
              ((if w2.length < w1.length then w1 else w2).length : ℚ) * (7/10)
            < 1 * (7/10) := by
              apply mul_lt_mul_of_pos_right hlt1; norm_num
          _ = 7/10 := one_mul _
      · exact hb
    · exact hb

theorem wordScan_common_zero {ws2 : List JStr} :
    ∀ (ws1 : List JStr) (acc : ℕ × ℕ × ℚ), (∀ w1 ∈ ws1, w1 ∉ ws2) →
    (ws1.foldl (wordOuterStep ws2) acc).1 = acc.1 := by
  intro ws1
  induction ws1 with
  | nil => intro acc _; rfl
  | cons w1 rest ih =>
    intro acc hno
    simp only [List.foldl_cons]
    rw [ih _ (fun w hw => hno w (List.mem_cons_of_mem _ hw))]
    unfold wordOuterStep
    simpa using wordPairStep_fst (hno w1 (List.mem_cons_self _ _)) _

theorem wordScan_weighted_lt {ws2 : List JStr} :
    ∀ (ws1 : List JStr) (acc : ℕ × ℕ × ℚ), (∀ w1 ∈ ws1, w1 ∉ ws2) → ws1 ≠ [] →
    (ws1.foldl (wordOuterStep ws2) acc).2.2 < acc.2.2 + (7/10) * ws1.length := by
  intro ws1
  induction ws1 with
  | nil => intro _ _ h; exact absurd rfl h
  | cons w1 rest ih =>
    intro acc hno _
    have hbest : (ws2.foldl (wordPairStep w1) (acc.1, acc.2.1, 0)).2.2 < 7/10 :=
      wordPairStep_best_lt (hno w1 (List.mem_cons_self _ _)) (by norm_num)
    simp only [List.foldl_cons]
    rcases List.eq_nil_or_concat rest with hrest | _
    · subst hrest
      simp only [List.foldl_nil, wordOuterStep, List.length_cons, List.length_nil]
      push_cast
      linarith
    · rcases List.exists_cons_of_ne_nil (show rest ≠ [] by rintro rfl; simp_all) with ⟨r, rs, hr⟩
      have := ih (wordOuterStep ws2 acc w1) (fun w hw => hno w (List.mem_cons_of_mem _ hw))
        (by rw [hr]; simp)
      have hacc : (wordOuterStep ws2 acc w1).2.2 < acc.2.2 + 7/10 := by
        unfold wordOuterStep
        simpa using by linarith [hbest]
      calc (rest.foldl (wordOuterStep ws2) (wordOuterStep ws2 acc w1)).2.2
          < (wordOuterStep ws2 acc w1).2.2 + (7/10) * rest.length := this
        _ < acc.2.2 + 7/10 + (7/10) * rest.length := by linarith
        _ = acc.2.2 + (7/10) * (w1 :: rest).length := by
            simp only [List.length_cons]; push_cast; ring

/-- A containment match (either direction) scores at least the `7/10` floor. -/
theorem calcExact_ge_of_contain {q c1 : JStr} (hq : jsNormalize q ≠ [])
    (hc1 : jsIncludes (jsNormalize c1) (jsNormalize q) = true) :
    7/10 ≤ calcExactSimilarity q c1 := by
  have hs2 : jsNormalize c1 ≠ [] := by
    intro h
    rw [h] at hc1
    have hlen := jsIncludes_length hc1
    simp only [List.length_nil, Nat.le_zero, List.length_eq_zero] at hlen
    exact hq hlen
  by_cases heq : jsNormalize q = jsNormalize c1
  · simp only [calcExactSimilarity]
    rw [if_neg (by simp [hq, hs2]), if_pos heq]
    norm_num
  · simp only [calcExactSimilarity]
    rw [if_neg (by simp [hq, hs2]), if_neg heq, if_pos (by simp [hc1])]
    exact le_jsMax_left _ _

/-- With no containment either way, no exact word in common, and the number of
partial word-match pairs bounded by the larger word count, the word-comparison
branch stays strictly below the `7/10` containment floor. -/
theorem calcExact_lt_of_partialOverlap {q c2 : JStr} (hq : jsNormalize q ≠ [])
    (hn1 : jsIncludes (jsNormalize q) (jsNormalize c2) = false)
    (hn2 : jsIncludes (jsNormalize c2) (jsNormalize q) = false)
    (hnoex : ∀ w1 ∈ jsWords (jsNormalize q), w1 ∉ jsWords (jsNormalize c2))
    (hbound : (wordScanAll (jsWords (jsNormalize q)) (jsWords (jsNormalize c2))).2.1
      ≤ natMax (jsWords (jsNormalize q)).length (jsWords (jsNormalize c2)).length) :
    calcExactSimilarity q c2 < 7/10 := by
  have hne : jsNormalize q ≠ jsNormalize c2 := by
    intro h
    rw [h, jsIncludes_refl] at hn1
    exact Bool.noConfusion hn1
  have hs2 : jsNormalize c2 ≠ [] := by
    intro h
    rw [h, jsIncludes_nil_right] at hn1
    exact Bool.noConfusion hn1
  simp only [calcExactSimilarity]
  rw [if_neg (by simp [hq, hs2]), if_neg hne, if_neg (by simp [hn1, hn2])]
  by_cases hw : (jsWords (jsNormalize q)).length = 0 ∨ (jsWords (jsNormalize c2)).length = 0
  · rw [if_pos hw]; norm_num
  · rw [if_neg hw]
    push_neg at hw
    set ws1 := jsWords (jsNormalize q) with hws1
    set ws2 := jsWords (jsNormalize c2) with hws2
    have hn1pos : 0 < ws1.length := Nat.pos_of_ne_zero hw.1
    have htotpos : (0:ℚ) < ((natMax ws1.length ws2.length : ℕ) : ℚ) := by
      have : 0 < natMax ws1.length ws2.length := by
        unfold natMax; split <;> omega
      exact_mod_cast this
    have hcommon : (wordScanAll ws1 ws2).1 = 0 := wordScan_common_zero ws1 (0,0,0) hnoex
    have hexact : ((wordScanAll ws1 ws2).1 : ℚ) / ((natMax ws1.length ws2.length : ℕ) : ℚ)
        < 7/10 := by
      rw [hcommon]
      push_cast
      rw [zero_div]
      norm_num
    have hpart : ((wordScanAll ws1 ws2).2.1 : ℚ) / ((natMax ws1.length ws2.length : ℕ) : ℚ)
        * (3/10) < 7/10 := by
      have hle1 : ((wordScanAll ws1 ws2).2.1 : ℚ) / ((natMax ws1.length ws2.length : ℕ) : ℚ)
          ≤ 1 := by
        rw [div_le_one htotpos]
        exact_mod_cast hbound
      have hnn : (0:ℚ) ≤ ((wordScanAll ws1 ws2).2.1 : ℚ)
          / ((natMax ws1.length ws2.length : ℕ) : ℚ) := by positivity
      nlinarith
    have hweight : (wordScanAll ws1 ws2).2.2 / (ws1.length : ℚ) < 7/10 := by
      have hlt := wordScan_weighted_lt ws1 (0,0,0) hnoex
        (by intro h; rw [h] at hn1pos; simp at hn1pos)
      have hpos : (0:ℚ) < (ws1.length : ℚ) := by exact_mod_cast hn1pos
      rw [div_lt_iff₀ hpos]
      have : (wordScanAll ws1 ws2).2.2 < (7/10) * ws1.length := by
        simpa [wordScanAll] using hlt
      linarith
    calc jsMin 1 (jsMax (((wordScanAll ws1 ws2).1 : ℚ) / ((natMax ws1.length ws2.length : ℕ) : ℚ))
          (jsMax (((wordScanAll ws1 ws2).2.1 : ℚ) / ((natMax ws1.length ws2.length : ℕ) : ℚ) * (3/10))
            ((wordScanAll ws1 ws2).2.2 / (ws1.length : ℚ))))
        ≤ jsMax (((wordScanAll ws1 ws2).1 : ℚ) / ((natMax ws1.length ws2.length : ℕ) : ℚ))
          (jsMax (((wordScanAll ws1 ws2).2.1 : ℚ) / ((natMax ws1.length ws2.length : ℕ) : ℚ) * (3/10))
            ((wordScanAll ws1 ws2).2.2 / (ws1.length : ℚ))) := jsMin_le_right _ _
      _ < 7/10 := jsMax_lt_of_lt hexact (jsMax_lt_of_lt hpart hweight)

/-! ### Claim C3 -/

/-- **C3** (amended): after trimming and lower-casing, the similarity scorers
(`_calculateExactSimilarity` and `_calculateEnhancedSimilarity`) give
`score(q, q) = 1` for every query `q` that is non-empty after normalisation,
and `score(q, "") = 0` and `score("", t) = 0` for all `q`, `t`.  (As stated,
the claim also demanded `score(q, q) = 1` for the empty query, which the code
maps to `0`; see the counterexample.) -/
theorem similarity_self_one_empty_zero (q t : JStr) :
    (jsNormalize q ≠ [] →
      calcExactSimilarity q q = 1 ∧ calcEnhancedSimilarity q q = 1) ∧
    calcExactSimilarity q [] = 0 ∧ calcExactSimilarity [] t = 0 ∧
    calcEnhancedSimilarity q [] = 0 ∧ calcEnhancedSimilarity [] t = 0 := by
  have hnil : jsNormalize [] = [] := rfl
  refine ⟨fun hq => ⟨?_, ?_⟩, ?_, ?_, ?_, ?_⟩
  · simp only [calcExactSimilarity]
    rw [if_neg (by simp [hq])]
    simp
  · simp only [calcEnhancedSimilarity]
    rw [if_neg (by simp [hq])]
    simp
  · simp only [calcExactSimilarity]
    rw [if_pos (Or.inr hnil)]
  · simp only [calcExactSimilarity]
    rw [if_pos (Or.inl hnil)]
  · simp only [calcEnhancedSimilarity]
    rw [if_pos (Or.inr hnil)]
  · simp only [calcEnhancedSimilarity]
    rw [if_pos (Or.inl hnil)]

/-- Witness for C3 at `q = "Submit  "`, `t = "anything"`, discharging the
trim-non-emptiness hypothesis of the self-score part. -/
theorem similarity_self_one_empty_zero_witness :
    (calcExactSimilarity "Submit  ".toList "Submit  ".toList = 1 ∧
      calcEnhancedSimilarity "Submit  ".toList "Submit  ".toList = 1) ∧
    calcExactSimilarity "Submit  ".toList [] = 0 ∧
    calcExactSimilarity [] "anything".toList = 0 ∧
    calcEnhancedSimilarity "Submit  ".toList [] = 0 ∧
    calcEnhancedSimilarity [] "anything".toList = 0 :=
  ⟨(similarity_self_one_empty_zero "Submit  ".toList "anything".toList).1
      (by with_unfolding_all decide),
   (similarity_self_one_empty_zero "Submit  ".toList "anything".toList).2⟩

/-- C3 counterexample: `score(q, q) == 1.0` fails on the degenerate queries —
both the empty query `q = ""` and the whitespace-only query `q = " "`
(empty after trimming) score `0`, not the claimed `1.0`. -/
theorem similarity_self_one_counterexample :
    calcExactSimilarity [] [] = 0 ∧ calcExactSimilarity [] [] ≠ 1 ∧
    calcEnhancedSimilarity [] [] = 0 ∧
    calcExactSimilarity " ".toList " ".toList = 0 ∧
    calcExactSimilarity " ".toList " ".toList ≠ 1 ∧
    calcEnhancedSimilarity " ".toList " ".toList = 0 := by
  refine ⟨by with_unfolding_all rfl, ?_, by with_unfolding_all rfl,
    by with_unfolding_all rfl, ?_, by with_unfolding_all rfl⟩
  · intro h
    rw [show calcExactSimilarity [] [] = 0 from by with_unfolding_all rfl] at h
    exact absurd h (by norm_num)
  · intro h
    rw [show calcExactSimilarity " ".toList " ".toList = 0 from by
      with_unfolding_all rfl] at h
    exact absurd h (by norm_num)

/-! ### Claim C4 -/

/-- **C4** (amended): for a query `q` that is non-empty after normalisation,
a candidate `c1` that fully contains `q` after normalisation, and a candidate
`c2` that has no containment relation with `q` and whose word overlap with `q`
is merely partial (no exact word in common), the score of `c1` strictly
dominates — provided the total number of partial word-match *pairs* counted by
the scan does not exceed the larger of the two word counts.  (Without that
bound the claim fails: the double loop counts every partial pair, so many-to-
many partial overlaps can push the word score to `9/10`; see the
counterexample.) -/
theorem score_containment_beats_partialOverlap (q c1 c2 : JStr)
    (hq : jsNormalize q ≠ [])
    (hc1 : jsIncludes (jsNormalize c1) (jsNormalize q) = true)
    (hn1 : jsIncludes (jsNormalize q) (jsNormalize c2) = false)
    (hn2 : jsIncludes (jsNormalize c2) (jsNormalize q) = false)
    (hnoex : ∀ w1 ∈ jsWords (jsNormalize q), w1 ∉ jsWords (jsNormalize c2))
    (hbound : (wordScanAll (jsWords (jsNormalize q)) (jsWords (jsNormalize c2))).2.1
      ≤ natMax (jsWords (jsNormalize q)).length (jsWords (jsNormalize c2)).length) :
    calcExactSimilarity q c2 < calcExactSimilarity q c1 :=
  lt_of_lt_of_le (calcExact_lt_of_partialOverlap hq hn1 hn2 hnoex hbound)
    (calcExact_ge_of_contain hq hc1)

/-- Witness for C4: `q = "submitted"`, `c1 = "application submitted"`,
`c2 = "submit form now"`. -/
theorem score_containment_beats_partialOverlap_witness :
    calcExactSimilarity "submitted".toList "submit form now".toList
      < calcExactSimilarity "submitted".toList "application submitted".toList :=
  score_containment_beats_partialOverlap
    "submitted".toList "application submitted".toList "submit form now".toList
    (by with_unfolding_all decide) (by with_unfolding_all decide)
    (by with_unfolding_all decide) (by with_unfolding_all decide)
    (by with_unfolding_all decide) (by with_unfolding_all decide)

/-- C4 counterexample, at `q = "abcd abcde abcdef"`,
`c1 = "abcd abcde abcdef xyzw"` (fully contains `q`, low coverage, score
`7/10`) and `c2 = "abcdefg abcdefgh abcdefghi"` (no containment either way, no
exact word in common, every word pair overlapping only partially — yet score
`9/10`, because all `3 × 3` partial pairs are counted).  The claimed strict
inequality `score(q, c1) > score(q, c2)` fails. -/
theorem score_containment_beats_partialOverlap_counterexample :
    jsIncludes (jsNormalize "abcd abcde abcdef xyzw".toList)
      (jsNormalize "abcd abcde abcdef".toList) = true ∧
    jsIncludes (jsNormalize "abcd abcde abcdef".toList)
      (jsNormalize "abcdefg abcdefgh abcdefghi".toList) = false ∧
    jsIncludes (jsNormalize "abcdefg abcdefgh abcdefghi".toList)
      (jsNormalize "abcd abcde abcdef".toList) = false ∧
    (jsWords (jsNormalize "abcd abcde abcdef".toList)).all
      (fun w1 => !(jsWords (jsNormalize "abcdefg abcdefgh abcdefghi".toList)).contains w1)
      = true ∧
    0 < (wordScanAll (jsWords (jsNormalize "abcd abcde abcdef".toList))
      (jsWords (jsNormalize "abcdefg abcdefgh abcdefghi".toList))).2.1 ∧
    calcExactSimilarity "abcd abcde abcdef".toList "abcd abcde abcdef xyzw".toList
      = 7/10 ∧
    calcExactSimilarity "abcd abcde abcdef".toList "abcdefg abcdefgh abcdefghi".toList
      = 9/10 ∧
    ¬ (calcExactSimilarity "abcd abcde abcdef".toList
          "abcdefg abcdefgh abcdefghi".toList
        < calcExactSimilarity "abcd abcde abcdef".toList
          "abcd abcde abcdef xyzw".toList) := by
  with_unfolding_all decide

/-! ### Error model (src/types/index.ts) -/

/-- `ErrorCode` (src/types/index.ts, lines 149-162). -/
inductive ErrorCode where
  | INVALID_ACTION
  | ELEMENT_NOT_FOUND
  | FORM_NOT_REGISTERED
  | FORM_NOT_FOUND
  | FIELD_NOT_FOUND
  | EXECUTION_TIMEOUT
  | EXECUTION_FAILED
  | NETWORK_ERROR
  | PERMISSION_DENIED
  | INVALID_CONFIGURATION
  | SCREENSHOT_FAILED
  | VALIDATION_FAILED
  | BROWSER_NOT_SUPPORTED
  deriving DecidableEq, Repr

/-- `AutomationError` (src/types/index.ts, lines 164-173); the optional
`context` payload is not modelled. -/
structure AutomationError where
  message : String
  code : ErrorCode
  deriving DecidableEq, Repr

/-! ### Form registry model (src/forms/FormRegistry.ts)

A form element is modelled by the DOM-ordered list of its
`input, textarea, select` controls; each control carries the attributes the
registry reads.  The `label` field stands for the result of the
`_getFieldLabel` document lookup, which is outside the pure fragment. -/

structure Control where
  name : String
  id : String
  tagName : String
  type : String
  value : String
  placeholder : String
  required : Bool
  disabled : Bool
  label : Option String
  deriving DecidableEq, Repr

structure FormElem where
  controls : List Control
  deriving DecidableEq, Repr

/-- `FormFieldContext` (src/types/index.ts, lines 81-91); `options` and
`multiselect` are never set by `FormRegistry._extractFormFields` and are
omitted. -/
structure FormFieldContext where
  name : String
  type : String
  value : String
  placeholder : Option String
  required : Bool
  disabled : Bool
  label : Option String
  deriving DecidableEq, Repr

/-- `FormFillResult` (src/types/index.ts, lines 35-42). -/
structure FormFillResult where
  success : Bool
  fieldsCount : ℕ
  filledFields : List String
  failedFields : List String
  error : Option String
  formId : Option String
  deriving DecidableEq, Repr

/-- `DEFAULT_FORM_REGISTRY_CONFIG.includeHiddenFields` (src/types/index.ts,
line 243); the registry constructor always copies the default config, so this
is the flag every registry instance runs with. -/
def registryIncludeHiddenFields : Bool := false

/-- `DEFAULT_FORM_REGISTRY_CONFIG.maxForms` (src/types/index.ts, line 242). -/
def registryMaxForms : ℕ := 50

/-- `FormRegistry._extractFormFields` (src/forms/FormRegistry.ts, lines
385-414): walk the form's controls in DOM order, skipping nameless and hidden
controls unless `includeHidden` is set. -/
def extractFieldStep (includeHidden : Bool) (fields : List FormFieldContext)
    (el : Control) : List FormFieldContext :=
  if el.name = "" ∧ includeHidden = false then fields
  else if el.type = "hidden" ∧ includeHidden = false then fields
  else fields ++
    [{ name := if el.name ≠ "" then el.name else if el.id ≠ "" then el.id else ""
     , type := if el.type ≠ "" then el.type else el.tagName.toLower
     , value := el.value
     , placeholder := if el.placeholder ≠ "" then some el.placeholder else none
     , required := el.required
     , disabled := el.disabled
     , label := el.label }]

def extractFormFields (includeHidden : Bool) (form : FormElem) :
    List FormFieldContext :=
  form.controls.foldl (extractFieldStep includeHidden) []

/-- The registry state: the `_initialized` flag and the insertion-ordered
catalogue.  In the source, `_forms : Map<string, FormAPI>` and
`_formElements : Map<string, HTMLFormElement>` are always updated in lockstep
(set together in `registerForm`, deleted together in `unregisterForm`), and
with no external form library every stored API is the native API over the
stored element, so the model keeps one association list of elements and
derives the native API from the element. -/
structure RegState where
  initialized : Bool
  forms : List (String × FormElem)
  deriving DecidableEq, Repr

/-- `FormRegistry.registerForm` (src/forms/FormRegistry.ts, lines 51-86).
Returns the post-call state together with the call's outcome; all three guard
failures happen before any mutation, so the state in those cases is exactly
the input state. -/
def registerForm (st : RegState) (formId : String) (formElement : FormElem) :
    RegState × Except AutomationError Unit :=
  if st.initialized = false then
    (st, .error ⟨"FormRegistry must be initialized before use",
      .INVALID_CONFIGURATION⟩)
  else if (st.forms.find? (fun p => p.1 == formId)).isSome then
    (st, .error ⟨"Form with ID " ++ formId ++ " is already registered",
      .FORM_NOT_FOUND⟩)
  else if registryMaxForms ≤ st.forms.length then
    (st, .error ⟨"Maximum number of forms exceeded", .INVALID_CONFIGURATION⟩)
  else
    ({ st with forms := st.forms ++ [(formId, formElement)] }, .ok ())

/-- Set the value of the first control matching `[name="field"]` (the
`querySelector` + assignment in the native API's `change`); no-op when no
control matches. -/
def setFirstNamed : List Control → String → String → List Control
  | [], _, _ => []
  | c :: rest, field, v =>
    if c.name == field then { c with value := v } :: rest
    else c :: setFirstNamed rest field v

/-- Is the raw field name safe to interpolate into the double-quoted CSS
string of the selector `[name="${field}"]`?  A double-quoted CSS string may
contain any character except the double quote itself, a backslash (which
would start an escape) and the newline-class characters (LF, CR, FF); for a
name made of such characters the interpolated selector is one well-formed
attribute selector that literally denotes `field`.  A name containing one of
the excluded characters breaks the string, and `querySelector` throws a
`SyntaxError` on the malformed selector. -/
def cssStringSafe (field : String) : Bool :=
  field.toList.all (fun c =>
    c ≠ '"' && c ≠ '\\' && c ≠ '\n' && c ≠ '\r' && c ≠ '\x0c')

/-- `_createNativeFormAPI(formElement).change` (src/forms/FormRegistry.ts,
lines 264-271): build `querySelector(`[name="${field}"]`)`.  For a
selector-safe name this looks up the first control named `field`; if found,
assign the value (the dispatched `input`/`change` events are not modelled);
if absent, do nothing.  For a name that breaks the interpolated selector,
`querySelector` throws the `SyntaxError`, modelled as the `.error` outcome. -/
def nativeChange (fe : FormElem) (field value : String) : Except Unit FormElem :=
  if cssStringSafe field then .ok ⟨setFirstNamed fe.controls field value⟩
  else .error ()

/-- `FormRegistry._fillFormInternal` (src/forms/FormRegistry.ts, lines
320-360), parameterised by the form API's `change` (which may throw) acting on
an API state `σ`.  Each field is attempted inside its own try/catch; a failure
records the field in `failedFields` and leaves the state unchanged.  The
enclosing `batch` is the native `updates()` pass-through and is not a separate
failure point here.  `fillStep` is one iteration of the `Object.entries`
loop: the accumulator is `(api state, filledFields, failedFields)`. -/
def fillStep {σ : Type} (change : σ → String → String → Except Unit σ)
    (acc : σ × List String × List String) (kv : String × String) :
    σ × List String × List String :=
  match change acc.1 kv.1 kv.2 with
  | .ok s2 => (s2, acc.2.1 ++ [kv.1], acc.2.2)
  | .error _ => (acc.1, acc.2.1, acc.2.2 ++ [kv.1])

def fillFormInternal {σ : Type} (change : σ → String → String → Except Unit σ)
    (s0 : σ) (fields : List (String × String)) (formId : Option String) :
    σ × FormFillResult :=
  let run := fields.foldl (fillStep change) (s0, [], [])
  (run.1,
   { success := run.2.2.length == 0
   , fieldsCount := fields.length
   , filledFields := run.2.1
   , failedFields := run.2.2
   , error := none
   , formId := formId })

/-- The per-form overlap count computed inside `_findBestFormMatch`: how many
of the supplied field names occur in the form's extracted field inventory. -/
def formMatchScore (fieldNames : List String) (fe : FormElem) : ℕ :=
  fieldNames.countP (fun n =>
    (extractFormFields registryIncludeHiddenFields fe).any (fun f => f.name == n))

/-- The score of the best match seen so far (`0` when none). -/
def curBestScore : Option (String × FormElem × ℕ) → ℕ
  | none => 0
  | some b => b.2.2

/-- One iteration of the `_findBestFormMatch` loop.  The source condition is
`score > 0 && (!bestMatch || score > bestMatch.score)`; given `score > 0`, the
second disjunction is exactly `curBestScore bestMatch < score`. -/
def bestStep (fieldNames : List String)
    (bestMatch : Option (String × FormElem × ℕ)) (p : String × FormElem) :
    Option (String × FormElem × ℕ) :=
  let score := formMatchScore fieldNames p.2
  if 0 < score ∧ curBestScore bestMatch < score then some (p.1, p.2, score)
  else bestMatch

/-- `FormRegistry._findBestFormMatch` (src/forms/FormRegistry.ts, lines
362-383). -/
def findBestFormMatch (forms : List (String × FormElem))
    (fields : List (String × String)) : Option (String × FormElem × ℕ) :=
  forms.foldl (bestStep (fields.map Prod.fst)) none

/-- Replace the stored element of `formId` (the in-place DOM mutation the
native `change` performs on the registered element). -/
def updateFormElem (forms : List (String × FormElem)) (formId : String)
    (fe : FormElem) : List (String × FormElem) :=
  forms.map (fun p => if p.1 == formId then (p.1, fe) else p)

/-- `FormRegistry.fillAnyForm` (src/forms/FormRegistry.ts, lines 122-142). -/
def fillAnyForm (st : RegState) (fields : List (String × String)) :
    Except AutomationError (RegState × FormFillResult) :=
  if st.initialized = false then
    .error ⟨"FormRegistry must be initialized before use",
      .INVALID_CONFIGURATION⟩
  else if st.forms.length = 0 then
    .error ⟨"No forms are registered", .FORM_NOT_FOUND⟩
  else match findBestFormMatch st.forms fields with
    | none => .error ⟨"No suitable form found for the provided fields",
        .FORM_NOT_FOUND⟩
    | some b =>
      let run := fillFormInternal nativeChange b.2.1 fields (some b.1)
      .ok ({ st with forms := updateFormElem st.forms b.1 run.1 }, run.2)

/-- Specification-side helper: the maximal overlap count over the catalogue. -/
def maxOverlapScore (forms : List (String × FormElem)) (names : List String) : ℕ :=
  (forms.map (fun p => formMatchScore names p.2)).foldl natMax 0

/-- Specification-side selection (from the spec's words): the
earliest-registered form attaining the strictly positive maximal overlap
count, or none when no registered form shares any field name. -/
def bestFormSpec (forms : List (String × FormElem)) (names : List String) :
    Option String :=
  if maxOverlapScore forms names = 0 then none
  else (forms.find? (fun p =>
    formMatchScore names p.2 == maxOverlapScore forms names)).map Prod.fst

/-! ### Facts about `natMax`, the overlap maximum and the best-match fold -/

theorem natMax_eq_max (a b : ℕ) : natMax a b = max a b := by
  unfold natMax; split <;> omega

theorem foldl_natMax_shift (l : List ℕ) : ∀ a, l.foldl natMax a = natMax a (l.foldl natMax 0) := by
  induction l with
  | nil => intro a; simp [natMax_eq_max]
  | cons x l ih =>
    intro a
    simp only [List.foldl_cons]
    rw [ih (natMax a x), ih (natMax 0 x)]
    simp only [natMax_eq_max]
    omega

theorem maxOverlapScore_nil (names : List String) : maxOverlapScore [] names = 0 := rfl

theorem maxOverlapScore_cons (p : String × FormElem) (forms : List (String × FormElem))
    (names : List String) :
    maxOverlapScore (p :: forms) names
      = natMax (formMatchScore names p.2) (maxOverlapScore forms names) := by
  unfold maxOverlapScore
  simp only [List.map_cons, List.foldl_cons]
  rw [foldl_natMax_shift]
  simp only [natMax_eq_max]
  omega

theorem maxOverlapScore_ge (forms : List (String × FormElem)) (names : List String) :
    ∀ q ∈ forms, formMatchScore names q.2 ≤ maxOverlapScore forms names := by
  induction forms with
  | nil => simp
  | cons p rest ih =>
    intro q hq
    rw [maxOverlapScore_cons, natMax_eq_max]
    rcases List.mem_cons.mp hq with h | h
    · subst h; omega
    · have := ih q h; omega

theorem maxOverlapScore_attained {forms : List (String × FormElem)} {names : List String}
    (h : 0 < maxOverlapScore forms names) :
    ∃ p ∈ forms, formMatchScore names p.2 = maxOverlapScore forms names := by
  induction forms with
  | nil => simp [maxOverlapScore_nil] at h
  | cons p rest ih =>
    rw [maxOverlapScore_cons, natMax_eq_max] at h ⊢
    by_cases hc : maxOverlapScore rest names ≤ formMatchScore names p.2
    · exact ⟨p, List.mem_cons_self _ _, by omega⟩
    · obtain ⟨q, hq, hsc⟩ := ih (by omega)
      exact ⟨q, List.mem_cons_of_mem _ hq, by omega⟩

theorem foldBest_le (names : List String) :
    ∀ (l : List (String × FormElem)) (b : Option (String × FormElem × ℕ)),
    (∀ p ∈ l, formMatchScore names p.2 ≤ curBestScore b) →
    l.foldl (bestStep names) b = b := by
  intro l
  induction l with
  | nil => intro b _; rfl
  | cons p rest ih =>
    intro b h
    have hp := h p (List.mem_cons_self _ _)
    have hstep : bestStep names b p = b := by
      unfold bestStep
      rw [if_neg]
      rintro ⟨h1, h2⟩
      omega
    simp only [List.foldl_cons, hstep]
    exact ih b (fun q hq => h q (List.mem_cons_of_mem _ hq))

theorem foldBest_gt (names : List String) :
    ∀ (l : List (String × FormElem)) (b : Option (String × FormElem × ℕ)),
    curBestScore b < maxOverlapScore l names →
    l.foldl (bestStep names) b =
      (l.find? (fun p => formMatchScore names p.2 == maxOverlapScore l names)).map
        (fun p => (p.1, p.2, maxOverlapScore l names)) := by
  intro l
  induction l with
  | nil => intro b h; simp [maxOverlapScore_nil] at h
  | cons p rest ih =>
    intro b h
    rw [maxOverlapScore_cons] at h ⊢
    by_cases hcase : maxOverlapScore rest names ≤ formMatchScore names p.2
    · have hMs : natMax (formMatchScore names p.2) (maxOverlapScore rest names)
          = formMatchScore names p.2 := by rw [natMax_eq_max]; omega
      rw [hMs] at h ⊢
      have hstep : bestStep names b p = some (p.1, p.2, formMatchScore names p.2) := by
        unfold bestStep
        rw [if_pos ⟨by omega, h⟩]
      simp only [List.foldl_cons, hstep]
      rw [foldBest_le names rest _ (fun q hq => by
        have := maxOverlapScore_ge rest names q hq
        simp only [curBestScore]
        omega)]
      rw [List.find?_cons_of_pos _ (by simp)]
      rfl
    · push_neg at hcase
      have hMr : natMax (formMatchScore names p.2) (maxOverlapScore rest names)
          = maxOverlapScore rest names := by rw [natMax_eq_max]; omega
      rw [hMr] at h ⊢
      rw [List.find?_cons_of_neg _ (by simp; omega)]
      simp only [List.foldl_cons]
      by_cases hb : curBestScore b < formMatchScore names p.2
      · have hstep : bestStep names b p = some (p.1, p.2, formMatchScore names p.2) := by
          unfold bestStep
          rw [if_pos ⟨by omega, hb⟩]
        rw [hstep]
        exact ih _ (by simp only [curBestScore]; omega)
      · have hstep : bestStep names b p = b := by
          unfold bestStep
          rw [if_neg]
          rintro ⟨h1, h2⟩
          omega
        rw [hstep]
        exact ih b h

/-- The loop of `_findBestFormMatch` computes exactly the spec's selection:
the earliest-registered form with the strictly positive maximal overlap. -/
theorem findBestFormMatch_eq_spec (forms : List (String × FormElem))
    (fields : List (String × String)) :
    (findBestFormMatch forms fields).map (fun b => b.1)
      = bestFormSpec forms (fields.map Prod.fst) := by
  unfold findBestFormMatch bestFormSpec
  by_cases hM : maxOverlapScore forms (fields.map Prod.fst) = 0
  · rw [if_pos hM]
    rw [foldBest_le (fields.map Prod.fst) forms none (fun q hq => by
      have := maxOverlapScore_ge forms (fields.map Prod.fst) q hq
      simp only [curBestScore]
      omega)]
    rfl
  · rw [if_neg hM]
    rw [foldBest_gt (fields.map Prod.fst) forms none
      (by simp only [curBestScore]; omega)]
    rw [Option.map_map]
    rfl

/-! ### The per-field fill loop -/

/-- Outcome of a fallible call as a Bool (`true` when it did not throw). -/
def exceptOk {ε α : Type} : Except ε α → Bool
  | .ok _ => true
  | .error _ => false

theorem fillLoop_filter {σ : Type} (change : σ → String → String → Except Unit σ)
    (okf : String → String → Bool)
    (hok : ∀ (s : σ) (f v : String), exceptOk (change s f v) = okf f v) :
    ∀ (fields : List (String × String)) (acc : σ × List String × List String),
      (fields.foldl (fillStep change) acc).2.1
        = acc.2.1 ++ (fields.filter (fun kv => okf kv.1 kv.2)).map Prod.fst ∧
      (fields.foldl (fillStep change) acc).2.2
        = acc.2.2 ++ (fields.filter (fun kv => !okf kv.1 kv.2)).map Prod.fst := by
  intro fields
  induction fields with
  | nil => intro acc; simp
  | cons kv rest ih =>
    intro acc
    simp only [List.foldl_cons]
    rcases hchange : change acc.1 kv.1 kv.2 with e | s2
    · have hk : okf kv.1 kv.2 = false := by
        rw [← hok acc.1 kv.1 kv.2, hchange]; rfl
      have hstep : fillStep change acc kv = (acc.1, acc.2.1, acc.2.2 ++ [kv.1]) := by
        unfold fillStep; rw [hchange]
      rw [hstep]
      obtain ⟨h1, h2⟩ := ih (acc.1, acc.2.1, acc.2.2 ++ [kv.1])
      refine ⟨?_, ?_⟩
      · rw [h1]; simp [List.filter_cons, hk]
      · rw [h2]; simp [List.filter_cons, hk]
    · have hk : okf kv.1 kv.2 = true := by
        rw [← hok acc.1 kv.1 kv.2, hchange]; rfl
      have hstep : fillStep change acc kv = (s2, acc.2.1 ++ [kv.1], acc.2.2) := by
        unfold fillStep; rw [hchange]
      rw [hstep]
      obtain ⟨h1, h2⟩ := ih (s2, acc.2.1 ++ [kv.1], acc.2.2)
      refine ⟨?_, ?_⟩
      · rw [h1]; simp [List.filter_cons, hk]
      · rw [h2]; simp [List.filter_cons, hk]

/-! ### Claim C6 -/

/-- **C6**: during `fillForm`/`fillAnyForm`, every supplied field is applied
independently.  For any form API whose `change` succeeds or throws as a
function `okf` of the field alone, the fields whose application throws are
exactly the ones recorded in `failedFields`, they do not prevent any later
field from being applied (`filledFields` collects *every* succeeding field),
the returned result has `success = true` iff `failedFields` is empty, and
`fieldsCount` equals the number of supplied keys. -/
theorem fillFormInternal_fields_independent {σ : Type}
    (change : σ → String → String → Except Unit σ) (okf : String → String → Bool)
    (hok : ∀ (s : σ) (f v : String), exceptOk (change s f v) = okf f v)
    (s0 : σ) (fields : List (String × String)) (formId : Option String) :
    ((fillFormInternal change s0 fields formId).2.success = true ↔
      (fillFormInternal change s0 fields formId).2.failedFields = []) ∧
    (fillFormInternal change s0 fields formId).2.fieldsCount = fields.length ∧
    (fillFormInternal change s0 fields formId).2.filledFields
      = (fields.filter (fun kv => okf kv.1 kv.2)).map Prod.fst ∧
    (fillFormInternal change s0 fields formId).2.failedFields
      = (fields.filter (fun kv => !okf kv.1 kv.2)).map Prod.fst := by
  obtain ⟨h1, h2⟩ := fillLoop_filter change okf hok fields (s0, [], [])
  refine ⟨?_, rfl, by simpa [fillFormInternal] using h1, by simpa [fillFormInternal] using h2⟩
  show ((fields.foldl (fillStep change) (s0, [], [])).2.2.length == 0) = true ↔ _
  simp only [beq_iff_eq, List.length_eq_zero]
  exact Iff.rfl

/-- A sample form API whose `change` throws exactly on field `"b"`. -/
def changeFailingOnB : Unit → String → String → Except Unit Unit :=
  fun _ f _ => if f == "b" then .error () else .ok ()

/-- A sample field map with three entries. -/
def sampleFillFields : List (String × String) :=
  [("a", "1"), ("b", "2"), ("c", "3")]

/-- Witness for C6: three fields, the middle one throwing. -/
theorem fillFormInternal_fields_independent_witness :
    ((fillFormInternal changeFailingOnB () sampleFillFields (some "f1")).2.success = true ↔
      (fillFormInternal changeFailingOnB () sampleFillFields (some "f1")).2.failedFields = []) ∧
    (fillFormInternal changeFailingOnB () sampleFillFields (some "f1")).2.fieldsCount
      = sampleFillFields.length ∧
    (fillFormInternal changeFailingOnB () sampleFillFields (some "f1")).2.filledFields
      = (sampleFillFields.filter (fun kv => !(kv.1 == "b"))).map Prod.fst ∧
    (fillFormInternal changeFailingOnB () sampleFillFields (some "f1")).2.failedFields
      = (sampleFillFields.filter (fun kv => !(!(kv.1 == "b")))).map Prod.fst :=
  fillFormInternal_fields_independent changeFailingOnB
    (fun f _ => !(f == "b"))
    (by
      intro s f v
      unfold changeFailingOnB
      by_cases h : (f == "b") = true
      · simp [h, exceptOk]
      · simp only [Bool.not_eq_true] at h
        simp [h, exceptOk])
    () sampleFillFields (some "f1")

/-! ### Claim C5 -/

theorem count_key_one {forms : List (String × FormElem)} {k : String}
    (hnodup : (forms.map Prod.fst).Nodup)
    (hfound : (forms.find? (fun p => p.1 == k)).isSome = true) :
    forms.countP (fun p => p.1 == k) = 1 := by
  induction forms with
  | nil => simp [List.find?] at hfound
  | cons p rest ih =>
    simp only [List.map_cons, List.nodup_cons] at hnodup
    by_cases hp : p.1 = k
    · rw [List.countP_cons]
      have hzero : rest.countP (fun q => q.1 == k) = 0 := by
        rw [List.countP_eq_zero]
        intro q hq
        simp only [beq_iff_eq]
        intro hqk
        exact hnodup.1 (by rw [hp, ← hqk]; exact List.mem_map_of_mem Prod.fst hq)
      simp [hzero, hp]
    · rw [List.find?_cons_of_neg _ (by simp [hp])] at hfound
      rw [List.countP_cons]
      simp [hp, ih hnodup.2 hfound]

/-- **C5**: registering an id that is already present fails with the
duplicate-registration `AutomationError` (code `FORM_NOT_FOUND`) and mutates
nothing — the catalogue after the failed call is the catalogue before it,
still containing exactly one record for that id. -/
theorem registerForm_duplicate_preserves_state (st : RegState) (formId : String)
    (fe : FormElem) (hinit : st.initialized = true)
    (hnodup : (st.forms.map Prod.fst).Nodup)
    (hdup : (st.forms.find? (fun p => p.1 == formId)).isSome = true) :
    (registerForm st formId fe).1 = st ∧
    (∃ e, (registerForm st formId fe).2 = .error e ∧
      e.code = ErrorCode.FORM_NOT_FOUND) ∧
    (registerForm st formId fe).1.forms.countP (fun p => p.1 == formId) = 1 := by
  unfold registerForm
  rw [if_neg (by simp [hinit]), if_pos hdup]
  exact ⟨rfl, ⟨_, rfl, rfl⟩, count_key_one hnodup hdup⟩

/-- Witness for C5: a registry holding exactly `"f1"`, re-registering `"f1"`. -/
theorem registerForm_duplicate_preserves_state_witness :
    (registerForm ⟨true, [("f1", ⟨[]⟩)]⟩ "f1" ⟨[]⟩).1 = ⟨true, [("f1", ⟨[]⟩)]⟩ ∧
    (∃ e, (registerForm ⟨true, [("f1", ⟨[]⟩)]⟩ "f1" ⟨[]⟩).2 = .error e ∧
      e.code = ErrorCode.FORM_NOT_FOUND) ∧
    (registerForm ⟨true, [("f1", ⟨[]⟩)]⟩ "f1" ⟨[]⟩).1.forms.countP
      (fun p => p.1 == "f1") = 1 :=
  registerForm_duplicate_preserves_state ⟨true, [("f1", ⟨[]⟩)]⟩ "f1" ⟨[]⟩
    rfl (by simp) (by with_unfolding_all decide)

/-! ### Claim C9 -/

/-- **C2**: on an initialized registry, `fillAnyForm` fails with
`FORM_NOT_FOUND` exactly when no registered form shares any field name with
the supplied keys (including the empty catalogue); otherwise it fills the
form whose field inventory shares the strictly greatest number of field names
with the supplied keys, keeping the earliest-registered form on equal counts
(`bestFormSpec`), and reports that form's id in the result. -/
theorem fillAnyForm_best_overlap (st : RegState) (fields : List (String × String))
    (hinit : st.initialized = true) :
    ((∃ e, fillAnyForm st fields = .error e ∧ e.code = ErrorCode.FORM_NOT_FOUND) ↔
      maxOverlapScore st.forms (fields.map Prod.fst) = 0) ∧
    (∀ st2 r, fillAnyForm st fields = .ok (st2, r) →
      r.formId = bestFormSpec st.forms (fields.map Prod.fst) ∧
      r.fieldsCount = fields.length) := by
  unfold fillAnyForm
  rw [if_neg (by simp [hinit])]
  by_cases hlen : st.forms.length = 0
  · rw [if_pos hlen]
    have hforms : st.forms = [] := List.length_eq_zero.mp hlen
    refine ⟨⟨fun _ => by rw [hforms, maxOverlapScore_nil], fun _ => ⟨_, rfl, rfl⟩⟩, ?_⟩
    intro st2 r h
    simp at h
  · rw [if_neg hlen]
    by_cases hM : maxOverlapScore st.forms (fields.map Prod.fst) = 0
    · have hnone : findBestFormMatch st.forms fields = none := by
        have hspec := findBestFormMatch_eq_spec st.forms fields
        unfold bestFormSpec at hspec
        rw [if_pos hM] at hspec
        exact Option.map_eq_none'.mp hspec
      rw [hnone]
      refine ⟨⟨fun _ => hM, fun _ => ⟨_, rfl, rfl⟩⟩, ?_⟩
      intro st2 r h
      simp at h
    · have hspec := findBestFormMatch_eq_spec st.forms fields
      rcases hbb : findBestFormMatch st.forms fields with _ | b
      · exfalso
        rw [hbb] at hspec
        unfold bestFormSpec at hspec
        rw [if_neg hM] at hspec
        obtain ⟨p, hp, hsc⟩ := maxOverlapScore_attained (Nat.pos_of_ne_zero hM)
        have hsome : (st.forms.find? (fun q =>
            formMatchScore (fields.map Prod.fst) q.2
              == maxOverlapScore st.forms (fields.map Prod.fst))).isSome = true :=
          List.find?_isSome.mpr ⟨p, hp, by simp [hsc]⟩
        rcases hfq : st.forms.find? (fun q =>
            formMatchScore (fields.map Prod.fst) q.2
              == maxOverlapScore st.forms (fields.map Prod.fst)) with _ | q
        · rw [hfq] at hsome; simp at hsome
        · rw [hfq] at hspec; simp at hspec
      · rw [hbb] at hspec
        refine ⟨⟨?_, fun h0 => absurd h0 hM⟩, ?_⟩
        · rintro ⟨e, he, _⟩
          simp at he
        · rintro st2 r hr
          simp only [Except.ok.injEq, Prod.mk.injEq] at hr
          obtain ⟨_, hrr⟩ := hr
          subst hrr
          exact ⟨by rw [← hspec]; rfl, rfl⟩

/-- Witness for C2 (Scenario B): form `"1"` has field `email`, form `"2"` has
fields `email, phone`; filling `{email, phone}` picks form `"2"`. -/
theorem fillAnyForm_best_overlap_witness :
    ((∃ e, fillAnyForm
        ⟨true, [("1", ⟨[⟨"email", "", "input", "text", "", "", false, false, none⟩]⟩),
                ("2", ⟨[⟨"email", "", "input", "text", "", "", false, false, none⟩,
                        ⟨"phone", "", "input", "text", "", "", false, false, none⟩]⟩)]⟩
        [("email", "x"), ("phone", "y")] = .error e ∧
      e.code = ErrorCode.FORM_NOT_FOUND) ↔
      maxOverlapScore
        [("1", ⟨[⟨"email", "", "input", "text", "", "", false, false, none⟩]⟩),
         ("2", ⟨[⟨"email", "", "input", "text", "", "", false, false, none⟩,
                 ⟨"phone", "", "input", "text", "", "", false, false, none⟩]⟩)]
        ([("email", "x"), ("phone", "y")].map Prod.fst) = 0) ∧
    (∀ st2 r, fillAnyForm
        ⟨true, [("1", ⟨[⟨"email", "", "input", "text", "", "", false, false, none⟩]⟩),
                ("2", ⟨[⟨"email", "", "input", "text", "", "", false, false, none⟩,
                        ⟨"phone", "", "input", "text", "", "", false, false, none⟩]⟩)]⟩
        [("email", "x"), ("phone", "y")] = .ok (st2, r) →
      r.formId = bestFormSpec
        [("1", ⟨[⟨"email", "", "input", "text", "", "", false, false, none⟩]⟩),
         ("2", ⟨[⟨"email", "", "input", "text", "", "", false, false, none⟩,
                 ⟨"phone", "", "input", "text", "", "", false, false, none⟩]⟩)]
        ([("email", "x"), ("phone", "y")].map Prod.fst) ∧
      r.fieldsCount = [("email", "x"), ("phone", "y")].length) :=
  fillAnyForm_best_overlap
    ⟨true, [("1", ⟨[⟨"email", "", "input", "text", "", "", false, false, none⟩]⟩),
            ("2", ⟨[⟨"email", "", "input", "text", "", "", false, false, none⟩,
                    ⟨"phone", "", "input", "text", "", "", false, false, none⟩]⟩)]⟩
    [("email", "x"), ("phone", "y")] rfl

/-! ### Engine and executor model (src/types/index.ts `AutomationEngine`,
src/actions/ActionExecutor.ts)

The dispatcher body (`_executeActionInternal`: the per-type `switch`, the
timeout race and the DOM work) is abstracted as a function `internalExec`
returning its outcome together with the list of DOM operations it attempted;
the engine and executor wrappers are modelled exactly.  Timestamps, the opaque
`data` payload, the diagnostic screenshot in the executor's catch, and event
listeners (none registered in this model) are not modelled. -/

/-- `ExecutionStatus` (src/types/index.ts, line 24). -/
inductive ExecutionStatus where
  | pending
  | in_progress
  | completed
  | failed
  deriving DecidableEq, Repr

/-- `ExecutionResult` (src/types/index.ts, lines 26-33), without the
`timestamp` and opaque `data` payload. -/
structure ExecutionResult where
  success : Bool
  status : ExecutionStatus
  error : Option String
  errorCode : Option ErrorCode
  deriving DecidableEq, Repr

/-- `ActionCommand` (src/types/index.ts, lines 10-15). -/
structure ActionCommand where
  type : String
  parameters : List (String × String)
  timeout : Option ℕ
  description : Option String
  deriving DecidableEq, Repr

/-- An attempted DOM operation, recorded for the no-DOM-touched claims. -/
abbrev DomOp := String

/-- `ActionExecutor.executeAction` (src/actions/ActionExecutor.ts, lines
38-70): run the dispatcher and shape the outcome — success gives
`success=true, status='completed'`, any thrown error is caught and gives
`success=false, status='failed'` with the error's code (`EXECUTION_FAILED`
for non-`AutomationError` faults, which the model folds into
`AutomationError` values). -/
def executorExecuteAction
    (internalExec : ActionCommand → Except AutomationError Unit × List DomOp)
    (action : ActionCommand) : ExecutionResult × List DomOp :=
  match internalExec action with
  | (.ok _, ops) =>
    ({ success := true, status := .completed, error := none, errorCode := none }, ops)
  | (.error e, ops) =>
    ({ success := false, status := .failed, error := some e.message,
       errorCode := some e.code }, ops)

/-- The fixed list in `AutomationEngine._validateAction`
(src/types/index.ts, line 469). -/
def validActionTypes : List String :=
  ["navigate", "click", "fill", "fillForm", "submitForm", "screenshot", "wait"]

/-- `AutomationEngine._validateAction` (src/types/index.ts, lines 452-477).
The `typeof`/null checks degenerate in the typed model to the emptiness check
on `type`; all three guards throw `VALIDATION_FAILED`. -/
def validateAction (action : ActionCommand) : Except AutomationError Unit :=
  if action.type = "" then
    .error ⟨"Action type is required and must be a string", .VALIDATION_FAILED⟩
  else if validActionTypes.contains action.type = false then
    .error ⟨"Invalid action type: " ++ action.type, .VALIDATION_FAILED⟩
  else .ok ()

/-- `AutomationEngine.executeAction` (src/types/index.ts, lines 318-355).
`_ensureInitialized` and `_validateAction` run *before* the try/catch, so
their errors propagate to the caller as a rejected promise (`.error`); only
the dispatcher runs inside the try, and `ActionExecutor.executeAction` never
throws, so the try body always returns the executor's result. -/
def engineExecuteAction (initialized : Bool)
    (internalExec : ActionCommand → Except AutomationError Unit × List DomOp)
    (action : ActionCommand) :
    Except AutomationError ExecutionResult × List DomOp :=
  if initialized = false then
    (.error ⟨"AutomationEngine must be initialized before use",
      .INVALID_CONFIGURATION⟩, [])
  else match validateAction action with
    | .error e => (.error e, [])
    | .ok _ =>
      let run := executorExecuteAction internalExec action
      (.ok run.1, run.2)

/-- The `for (const action of actions)` loop of
`AutomationEngine.executeActions` (src/types/index.ts, lines 364-373):
strictly sequential, one awaited `executeAction` per command; a thrown
validation error propagates; after a failed result the loop `break`s exactly
when `debugMode` is set. -/
def executeActionsLoop (initialized debugMode : Bool)
    (internalExec : ActionCommand → Except AutomationError Unit × List DomOp) :
    List ActionCommand → List ExecutionResult → List DomOp →
    Except AutomationError (List ExecutionResult) × List DomOp
  | [], results, tr => (.ok results, tr)
  | a :: rest, results, tr =>
    match engineExecuteAction initialized internalExec a with
    | (.error e, ops) => (.error e, tr ++ ops)
    | (.ok r, ops) =>
      if r.success = false ∧ debugMode = true then (.ok (results ++ [r]), tr ++ ops)
      else executeActionsLoop initialized debugMode internalExec rest
        (results ++ [r]) (tr ++ ops)

/-- `AutomationEngine.executeActions` (src/types/index.ts, lines 357-376). -/
def engineExecuteActions (initialized debugMode : Bool)
    (internalExec : ActionCommand → Except AutomationError Unit × List DomOp)
    (actions : List ActionCommand) :
    Except AutomationError (List ExecutionResult) × List DomOp :=
  if initialized = false then
    (.error ⟨"AutomationEngine must be initialized before use",
      .INVALID_CONFIGURATION⟩, [])
  else if actions.length = 0 then (.ok [], [])
  else executeActionsLoop initialized debugMode internalExec actions [] []

/-- Specification-side helper: the prefix of a result list up to and
including its first failed result. -/
def firstFailureCut : List ExecutionResult → List ExecutionResult
  | [] => []
  | r :: rest => if r.success = true then r :: firstFailureCut rest else [r]

/-! ### Claim C10 -/

/-- **C10**: every `ExecutionResult` produced by
`ActionExecutor.executeAction` has status `completed` exactly when
`success = true` and `failed` exactly when `success = false`; the declared
statuses `pending` and `in_progress` are never produced. -/
theorem executor_status_matches_success
    (internalExec : ActionCommand → Except AutomationError Unit × List DomOp)
    (action : ActionCommand) :
    ((executorExecuteAction internalExec action).1.status
        = ExecutionStatus.completed ↔
      (executorExecuteAction internalExec action).1.success = true) ∧
    ((executorExecuteAction internalExec action).1.status
        = ExecutionStatus.failed ↔
      (executorExecuteAction internalExec action).1.success = false) ∧
    (executorExecuteAction internalExec action).1.status ≠ ExecutionStatus.pending ∧
    (executorExecuteAction internalExec action).1.status
      ≠ ExecutionStatus.in_progress := by
  unfold executorExecuteAction
  rcases h : internalExec action with ⟨res, ops⟩
  rcases res with e | u <;> simp

/-! ### Claim C1 -/

/-- **C1** (amended): for an `ActionCommand` whose `type` is not one of the
seven supported kinds, `executeAction` on an initialized engine does *not*
return an `ExecutionResult`: `_validateAction` runs before the try/catch and
throws an `AutomationError` with code `VALIDATION_FAILED` to the caller (a
rejected promise), and no DOM operation is attempted before that. -/
theorem engine_invalid_type_throws (initialized : Bool)
    (internalExec : ActionCommand → Except AutomationError Unit × List DomOp)
    (action : ActionCommand) (hinit : initialized = true)
    (hbad : validActionTypes.contains action.type = false) :
    (∃ e, (engineExecuteAction initialized internalExec action).1 = .error e ∧
      e.code = ErrorCode.VALIDATION_FAILED) ∧
    (engineExecuteAction initialized internalExec action).2 = [] := by
  subst hinit
  unfold engineExecuteAction
  rw [if_neg (by simp)]
  unfold validateAction
  by_cases ht : action.type = ""
  · rw [if_pos ht]
    exact ⟨⟨_, rfl, rfl⟩, rfl⟩
  · rw [if_neg ht, if_pos hbad]
    exact ⟨⟨_, rfl, rfl⟩, rfl⟩

/-- Witness for C1 at `type = "hover"`, with a dispatcher that would record a
DOM operation if it were ever reached. -/
theorem engine_invalid_type_throws_witness :
    (∃ e, (engineExecuteAction true (fun _ => (.ok (), ["dom-op"]))
        ⟨"hover", [], none, none⟩).1 = .error e ∧
      e.code = ErrorCode.VALIDATION_FAILED) ∧
    (engineExecuteAction true (fun _ => (.ok (), ["dom-op"]))
        ⟨"hover", [], none, none⟩).2 = [] :=
  engine_invalid_type_throws true (fun _ => (.ok (), ["dom-op"]))
    ⟨"hover", [], none, none⟩ rfl (by with_unfolding_all decide)

/-- C1 counterexample: at `type = "hover"` on an initialized engine,
`executeAction` does not return an `ExecutionResult` at all — the call
rejects with the thrown `VALIDATION_FAILED` `AutomationError`, so the claim
that the caller receives a `success=false` result (never a fault) is false. -/
theorem engine_invalid_type_counterexample :
    (engineExecuteAction true (fun _ => (.ok (), ["dom-op"]))
        ⟨"hover", [], none, none⟩).1
      = .error ⟨"Invalid action type: hover", ErrorCode.VALIDATION_FAILED⟩ ∧
    exceptOk (engineExecuteAction true (fun _ => (.ok (), ["dom-op"]))
        ⟨"hover", [], none, none⟩).1 = false :=
  ⟨by with_unfolding_all rfl, by with_unfolding_all rfl⟩

/-! ### Claim C7 -/

theorem executeActionsLoop_cons_ok (initialized debugMode : Bool)
    (internalExec : ActionCommand → Except AutomationError Unit × List DomOp)
    (a : ActionCommand) (rest : List ActionCommand)
    (results : List ExecutionResult) (tr : List DomOp)
    (r : ExecutionResult) (ops : List DomOp)
    (h : engineExecuteAction initialized internalExec a = (.ok r, ops)) :
    executeActionsLoop initialized debugMode internalExec (a :: rest) results tr =
      if r.success = false ∧ debugMode = true then (.ok (results ++ [r]), tr ++ ops)
      else executeActionsLoop initialized debugMode internalExec rest
        (results ++ [r]) (tr ++ ops) := by
  conv_lhs => unfold executeActionsLoop
  rw [h]

theorem executeActionsLoop_char (debugMode : Bool)
    (internalExec : ActionCommand → Except AutomationError Unit × List DomOp) :
    ∀ (actions : List ActionCommand) (results : List ExecutionResult)
      (tr : List DomOp), (∀ a ∈ actions, validateAction a = .ok ()) →
    (executeActionsLoop true debugMode internalExec actions results tr).1 =
      .ok (results ++ (if debugMode = true
        then firstFailureCut
          (actions.map (fun a => (executorExecuteAction internalExec a).1))
        else actions.map (fun a => (executorExecuteAction internalExec a).1))) := by
  intro actions
  induction actions with
  | nil => intro results tr _; simp [executeActionsLoop, firstFailureCut]
  | cons a rest ih =>
    intro results tr hval
    have hv := hval a (List.mem_cons_self _ _)
    have heng : engineExecuteAction true internalExec a
        = (.ok (executorExecuteAction internalExec a).1,
           (executorExecuteAction internalExec a).2) := by
      unfold engineExecuteAction
      rw [if_neg (by simp), hv]
    rw [executeActionsLoop_cons_ok true debugMode internalExec a rest results tr
      (executorExecuteAction internalExec a).1 (executorExecuteAction internalExec a).2 heng]
    by_cases hsucc : (executorExecuteAction internalExec a).1.success = false
        ∧ debugMode = true
    · rw [if_pos hsucc]
      obtain ⟨hs, hd⟩ := hsucc
      simp [hd, firstFailureCut, hs]
    · rw [if_neg hsucc]
      rw [ih (results ++ [(executorExecuteAction internalExec a).1]) _
        (fun q hq => hval q (List.mem_cons_of_mem _ hq))]
      by_cases hd : debugMode = true
      · have hs : (executorExecuteAction internalExec a).1.success = true := by
          rcases Bool.eq_false_or_eq_true
              ((executorExecuteAction internalExec a).1.success) with h | h
          · exact h
          · exact absurd ⟨h, hd⟩ hsucc
        simp [hd, firstFailureCut, hs]
      · have hd2 : debugMode = false := by
          revert hd; cases debugMode <;> simp
        simp [hd2]

/-- **C7**: `executeActions` processes commands strictly sequentially (one
`executeAction` awaited per command, modelled by the left fold); provided
every command passes validation, when a result has `success = false` the
remaining commands are skipped iff debug/fail-fast mode is active — with
`debugMode` the collected results are the prefix up to and including the
first failure, without it exactly one result per command in order. -/
theorem executeActions_sequential_failfast (debugMode : Bool)
    (internalExec : ActionCommand → Except AutomationError Unit × List DomOp)
    (actions : List ActionCommand)
    (hvalid : ∀ a ∈ actions, validateAction a = .ok ()) :
    (engineExecuteActions true debugMode internalExec actions).1 =
      .ok (if debugMode = true
        then firstFailureCut
          (actions.map (fun a => (executorExecuteAction internalExec a).1))
        else actions.map (fun a => (executorExecuteAction internalExec a).1)) := by
  unfold engineExecuteActions
  rw [if_neg (by simp)]
  by_cases hlen : actions.length = 0
  · rw [if_pos hlen]
    have hnil : actions = [] := List.length_eq_zero.mp hlen
    subst hnil
    simp [firstFailureCut]
  · rw [if_neg hlen]
    simpa using executeActionsLoop_char debugMode internalExec actions [] [] hvalid

/-- Witness for C7: fail-fast mode on, three valid commands with the middle
one failing. -/
theorem executeActions_sequential_failfast_witness :
    (engineExecuteActions true true
      (fun a => if a.type == "click"
        then (.error ⟨"no target", .ELEMENT_NOT_FOUND⟩, ["click-op"])
        else (.ok (), ["other-op"]))
      [⟨"navigate", [], none, none⟩, ⟨"click", [], none, none⟩,
       ⟨"wait", [], none, none⟩]).1 =
      .ok (if (true : Bool) = true
        then firstFailureCut
          ([⟨"navigate", [], none, none⟩, ⟨"click", [], none, none⟩,
            ⟨"wait", [], none, none⟩].map (fun a => (executorExecuteAction
              (fun a => if a.type == "click"
                then (.error ⟨"no target", .ELEMENT_NOT_FOUND⟩, ["click-op"])
                else (.ok (), ["other-op"])) a).1))
        else [⟨"navigate", [], none, none⟩, ⟨"click", [], none, none⟩,
            ⟨"wait", [], none, none⟩].map (fun a => (executorExecuteAction
              (fun a => if a.type == "click"
                then (.error ⟨"no target", .ELEMENT_NOT_FOUND⟩, ["click-op"])
                else (.ok (), ["other-op"])) a).1)) :=
  executeActions_sequential_failfast true
    (fun a => if a.type == "click"
      then (.error ⟨"no target", .ELEMENT_NOT_FOUND⟩, ["click-op"])
      else (.ok (), ["other-op"]))
    [⟨"navigate", [], none, none⟩, ⟨"click", [], none, none⟩,
     ⟨"wait", [], none, none⟩]
    (by intro a ha; fin_cases ha <;> with_unfolding_all rfl)

/-! ### Field-name extraction (ContextCapture, src/unnamed/part_000)

`_extractFieldName` inspects a wrapper element; the wrapper is modelled by the
attribute values its `querySelector`/`getAttribute` calls would return
(`none` for a `null` result), plus a predicate `hasDescendant` standing for
the existence checks `_getFieldTypeHint` performs. -/

/-- The first `input, textarea, select, button[data-value]` descendant:
its `name` attribute (`none` when absent) and its `id` property (`""` when
absent). -/
structure InnerControl where
  nameAttr : Option JStr
  id : JStr

/-- The first `[data-form-label]` descendant: the attribute value and the
element's trimmed text content. -/
structure LabelEl where
  attrVal : Option JStr
  textContent : JStr

structure WrapperElem where
  innerControl : Option InnerControl
  fieldWrapperAttr : Option JStr
  labelEl : Option LabelEl
  ariaLabel : Option JStr
  placeholderAttr : Option JStr
  selectboxAttr : Option JStr
  hasSelectboxEl : Bool
  hasDescendant : String → Bool

/-- The prefixes stripped by `_stripFieldPrefix` (src/unnamed/part_000,
line 1415), in order. -/
def fieldFrameworkPrefixes : List JStr :=
  ["field-".toList, "form-".toList, "input-".toList, "rff-field-".toList,
   "wrapper-field-".toList]

/-- `ContextCapture._stripFieldPrefix` (src/unnamed/part_000, lines
1413-1428): strip the first matching framework marker, but only when a
non-empty name remains; otherwise keep looking, and fall back to the
original name. -/
def stripFieldPrefixFn (fieldName : JStr) : JStr :=
  match fieldFrameworkPrefixes.find? (fun p =>
    startsWithL fieldName p && decide (p.length < fieldName.length)) with
  | some p => fieldName.drop p.length
  | none => fieldName

/-- Characters kept by the `[^a-z0-9\s]` removal in `_labelToFieldName`. -/
def keepLabelChar (c : Char) : Bool :=
  ('a' ≤ c && c ≤ 'z') || ('0' ≤ c && c ≤ '9') || isWS c

theorem dropWhileLengthLe {α : Type} (p : α → Bool) :
    ∀ l : List α, (l.dropWhile p).length ≤ l.length := by
  intro l
  induction l with
  | nil => simp
  | cons a rest ih =>
    by_cases h : p a = true
    · rw [List.dropWhile_cons_of_pos h]
      exact Nat.le_trans ih (by simp)
    · rw [List.dropWhile_cons_of_neg (by simp [h])]

/-- `.replace(/\s+/g, '_')`: each maximal whitespace run becomes one
underscore. -/
def wsRunsToUnderscore : JStr → JStr
  | [] => []
  | c :: rest =>
    if isWS c then '_' :: wsRunsToUnderscore (rest.dropWhile isWS)
    else c :: wsRunsToUnderscore rest
termination_by s => s.length
decreasing_by
  · simp only [List.length_cons]
    exact Nat.lt_succ_of_le (dropWhileLengthLe _ _)
  · simp

/-- `.replace(/^_+|_+$/g, '')`: strip leading and trailing underscore runs. -/
def stripEdgeUnderscores (s : JStr) : JStr :=
  ((s.dropWhile (fun c => c = '_')).reverse.dropWhile (fun c => c = '_')).reverse

/-- `.replace(/_+/g, '_')`: collapse each underscore run to one underscore. -/
def underscoreRunsCollapse : JStr → JStr
  | [] => []
  | c :: rest =>
    if c = '_' then '_' :: underscoreRunsCollapse (rest.dropWhile (fun x => x = '_'))
    else c :: underscoreRunsCollapse rest
termination_by s => s.length
decreasing_by
  · simp only [List.length_cons]
    exact Nat.lt_succ_of_le (dropWhileLengthLe _ _)
  · simp

/-- `ContextCapture._labelToFieldName` (src/unnamed/part_000, lines
1430-1439): lowercase, drop special characters, whitespace runs to
underscores, strip edge underscores, collapse underscore runs, and fall back
to `"unknown_field"` when nothing remains. -/
def labelToFieldName (label : JStr) : JStr :=
  let processed := underscoreRunsCollapse (stripEdgeUnderscores
    (wsRunsToUnderscore ((jsToLower label).filter keepLabelChar)))
  if processed = [] then "unknown_field".toList else processed

/-- `ContextCapture._getFieldTypeHint` (src/unnamed/part_000, lines
1441-1457). -/
def getFieldTypeHint (wrapper : WrapperElem) : JStr :=
  if wrapper.hasDescendant "[data-selectbox-value]" then "selectbox".toList
  else if wrapper.hasDescendant "input[type=\"text\"]" then "text".toList
  else if wrapper.hasDescendant "input[type=\"number\"]" then "number".toList
  else if wrapper.hasDescendant "input[type=\"email\"]" then "email".toList
  else if wrapper.hasDescendant "input[type=\"password\"]" then "password".toList
  else if wrapper.hasDescendant "input[type=\"checkbox\"]" then "checkbox".toList
  else if wrapper.hasDescendant "input[type=\"radio\"]" then "radio".toList
  else if wrapper.hasDescendant "input[type=\"file\"]" then "file".toList
  else if wrapper.hasDescendant "textarea" then "textarea".toList
  else if wrapper.hasDescendant "button[data-value]" then "button".toList
  else if wrapper.hasDescendant "input[type=\"date\"]" then "date".toList
  else if wrapper.hasDescendant "input[type=\"range\"]" then "range".toList
  else "field".toList

/-- `ContextCapture._extractFieldName` (src/unnamed/part_000, lines
1313-1363): the seven-stage early-return cascade, with each stage modelled as
an `Option` and the cascade as their ordered first-some. -/
def extractFieldName (wrapper : WrapperElem) (index : ℕ) : JStr :=
  let step1 : Option JStr :=
    match wrapper.innerControl with
    | some inputEl =>
      let name := match inputEl.nameAttr with
        | some n => if n ≠ [] then n else inputEl.id
        | none => inputEl.id
      if name ≠ [] ∧ jsTrim name ≠ [] then some (stripFieldPrefixFn (jsTrim name))
      else none
    | none => none
  let step2 : Option JStr :=
    match wrapper.fieldWrapperAttr with
    | some fw => if fw ≠ [] ∧ jsTrim fw ≠ [] then some (stripFieldPrefixFn (jsTrim fw))
        else none
    | none => none
  let step3 : Option JStr :=
    match wrapper.labelEl with
    | some lab =>
      let labelText := match lab.attrVal with
        | some a => if a ≠ [] then a else jsTrim lab.textContent
        | none => jsTrim lab.textContent
      if labelText ≠ [] ∧ jsTrim labelText ≠ [] then
        some (labelToFieldName (jsTrim labelText))
      else none
    | none => none
  let step4 : Option JStr :=
    match wrapper.ariaLabel with
    | some a => if a ≠ [] ∧ jsTrim a ≠ [] then some (labelToFieldName (jsTrim a))
        else none
    | none => none
  let step5 : Option JStr :=
    match wrapper.placeholderAttr with
    | some pl => if pl ≠ [] ∧ jsTrim pl ≠ [] then some (labelToFieldName (jsTrim pl))
        else none
    | none => none
  let step6 : Option JStr :=
    if wrapper.hasSelectboxEl then
      match wrapper.selectboxAttr with
      | some t => if t ≠ [] ∧ jsTrim t ≠ [] then some (labelToFieldName (jsTrim t))
          else none
      | none => none
    else none
  ((((step1.orElse fun _ => step2).orElse fun _ => step3).orElse
    (fun _ => step4)).orElse fun _ => (step5.orElse fun _ => step6)).getD
    (getFieldTypeHint wrapper ++ '_' :: (Nat.repr index).toList)

/-! ### Claim C8 -/

theorem stripFieldPrefixFn_ne_nil {s : JStr} (h : s ≠ []) :
    stripFieldPrefixFn s ≠ [] := by
  unfold stripFieldPrefixFn
  rcases hf : fieldFrameworkPrefixes.find? (fun p =>
      startsWithL s p && decide (p.length < s.length)) with _ | p
  · exact h
  · have hp := List.find?_some hf
    simp only [Bool.and_eq_true, decide_eq_true_eq] at hp
    intro hcontra
    have := congrArg List.length hcontra
    rw [List.length_drop] at this
    simp at this
    omega

theorem labelToFieldName_ne_nil (label : JStr) : labelToFieldName label ≠ [] := by
  simp only [labelToFieldName]
  split
  · simp
  · assumption

theorem optionGetDP {α : Type} (P : α → Prop) (o : Option α) (d : α)
    (hs : ∀ v, o = some v → P v) (hd : P d) : P (o.getD d) := by
  cases o with
  | none => exact hd
  | some v => exact hs v rfl

theorem optionOrElseP {α : Type} (P : α → Prop) (o1 : Option α)
    (o2 : Unit → Option α) (h1 : ∀ v, o1 = some v → P v)
    (h2 : ∀ v, o2 () = some v → P v) :
    ∀ v, o1.orElse o2 = some v → P v := by
  cases o1 with
  | none => simpa [Option.orElse] using h2
  | some w =>
    intro v hv
    simp only [Option.orElse] at hv
    exact h1 v hv

theorem extractFieldName_ne_nil (wrapper : WrapperElem) (index : ℕ) :
    extractFieldName wrapper index ≠ [] := by
  unfold extractFieldName
  apply optionGetDP (fun v => v ≠ [])
  · apply optionOrElseP
    · apply optionOrElseP
      · apply optionOrElseP
        · apply optionOrElseP
          · -- step 1: inner control name/id, stripped
            rcases wrapper.innerControl with _ | inputEl
            · intro v hv; simp at hv
            · intro v hv
              simp only [] at hv
              split at hv
              · rcases hv with ⟨rfl⟩ | _
                all_goals first
                  | (rename_i hcond; exact stripFieldPrefixFn_ne_nil hcond.2)
              · simp at hv
          · -- step 2: data-component-field-wrapper, stripped
            rcases wrapper.fieldWrapperAttr with _ | fw
            · intro v hv; simp at hv
            · intro v hv
              simp only [] at hv
              split at hv
              · rcases hv with ⟨rfl⟩ | _
                all_goals first
                  | (rename_i hcond; exact stripFieldPrefixFn_ne_nil hcond.2)
              · simp at hv
        · -- step 3: label text
          rcases wrapper.labelEl with _ | lab
          · intro v hv; simp at hv
          · intro v hv
            simp only [] at hv
            split at hv
            · rcases hv with ⟨rfl⟩ | _
              all_goals exact labelToFieldName_ne_nil _
            · simp at hv
      · -- step 4: aria-label
        rcases wrapper.ariaLabel with _ | a
        · intro v hv; simp at hv
        · intro v hv
          simp only [] at hv
          split at hv
          · rcases hv with ⟨rfl⟩ | _
            all_goals exact labelToFieldName_ne_nil _
          · simp at hv
    · apply optionOrElseP
      · -- step 5: placeholder
        rcases wrapper.placeholderAttr with _ | pl
        · intro v hv; simp at hv
        · intro v hv
          simp only [] at hv
          split at hv
          · rcases hv with ⟨rfl⟩ | _
            all_goals exact labelToFieldName_ne_nil _
          · simp at hv
      · -- step 6: data-selectbox-value
        intro v hv
        simp only [] at hv
        split at hv
        · rcases hsel : wrapper.selectboxAttr with _ | t
          · rw [hsel] at hv
            simp at hv
          · rw [hsel] at hv
            by_cases hc : t ≠ [] ∧ jsTrim t ≠ []
            · simp only [hc.1, hc.2, ne_eq, not_false_eq_true, and_self, if_true,
                Option.some.injEq] at hv
              exact hv ▸ labelToFieldName_ne_nil _
            · simp [hc] at hv
        · simp at hv
  · -- last resort: "<typeHint>_<index>" contains the underscore
    intro h
    have := congrArg List.length h
    simp at this

theorem extractFieldStep_names {includeHidden : Bool}
    (hreg : includeHidden = false) :
    ∀ (controls : List Control) (acc : List FormFieldContext),
    (∀ f ∈ acc, f.name ≠ "") →
    ∀ f ∈ controls.foldl (extractFieldStep includeHidden) acc, f.name ≠ "" := by
  intro controls
  induction controls with
  | nil => intro acc hacc; simpa using hacc
  | cons el rest ih =>
    intro acc hacc
    simp only [List.foldl_cons]
    apply ih
    intro f hf
    unfold extractFieldStep at hf
    subst hreg
    by_cases hname : el.name = ""
    · rw [if_pos ⟨hname, rfl⟩] at hf
      exact hacc f hf
    · rw [if_neg (by simp [hname])] at hf
      split at hf
      · exact hacc f hf
      · rcases List.mem_append.mp hf with h | h
        · exact hacc f h
        · simp only [List.mem_singleton] at h
          subst h
          simp [hname]

/-- **C8**: every field descriptor produced by form-field extraction has a
non-empty name.  `FormRegistry._extractFormFields` — run with the registry's
fixed `includeHiddenFields = false` configuration — skips every control whose
`name` is empty before a descriptor is built, and
`ContextCapture._extractFieldName` always returns a non-empty name: prefix
stripping keeps a non-empty remainder, names derived from label, aria-label,
placeholder or selectbox text fall back to `"unknown_field"`, and the last
resort is `"<typeHint>_<index>"`. -/
theorem extracted_field_names_nonempty :
    (∀ (form : FormElem) (f : FormFieldContext),
      f ∈ extractFormFields registryIncludeHiddenFields form → f.name ≠ "") ∧
    (∀ (wrapper : WrapperElem) (index : ℕ),
      extractFieldName wrapper index ≠ []) := by
  constructor
  · intro form f hf
    exact extractFieldStep_names rfl form.controls [] (by simp) f hf
  · exact extractFieldName_ne_nil

/-- Witness for C8: the one-control form yields the descriptor named
`"email"`, and a wrapper with no usable attributes at index 3 still gets a
non-empty fallback name. -/
theorem extracted_field_names_nonempty_witness :
    ({ name := "email", type := "text", value := "", placeholder := none,
       required := false, disabled := false, label := none } :
        FormFieldContext).name ≠ "" ∧
    extractFieldName ⟨none, none, none, none, none, none, false, fun _ => false⟩
      3 ≠ [] :=
  ⟨extracted_field_names_nonempty.1
      ⟨[⟨"email", "", "input", "text", "", "", false, false, none⟩]⟩
      { name := "email", type := "text", value := "", placeholder := none,
        required := false, disabled := false, label := none }
      (by with_unfolding_all decide),
   extracted_field_names_nonempty.2
      ⟨none, none, none, none, none, none, false, fun _ => false⟩ 3⟩

end Kriya
